import Mathlib

/-!
Verification of the TODO record engine of the Awesome-TODO extension.

The definitions below are a shallow embedding of the TypeScript source
(`src/provider.ts`, `src/utils.ts`): strings are Lean `String`s, the
JavaScript regular expressions used by the extractor are implemented as
explicit character-list scanners with the same matching discipline
(leftmost match, greedy `\s*`, lazy message body bounded by a lookahead
for the next comment-mark + TODO occurrence, or end of line), and each
VS Code command is a pure function from its inputs and the loaded store
to the saved store (plus, where relevant, the source edit it issues).
-/

namespace AwesomeTodo

/-- JavaScript `\s` restricted to the ASCII whitespace characters that can
occur in a single line of source text (the inputs here contain no
newline, but we keep the full set). -/
def isWS (c : Char) : Bool :=
  c == ' ' || c == '\t' || c == '\n' || c == '\r' || c == '\x0b' || c == '\x0c'

/-- JavaScript `String.prototype.trim` on a character list. -/
def jsTrimList (l : List Char) : List Char :=
  ((l.dropWhile isWS).reverse.dropWhile isWS).reverse

/-- JavaScript `String.prototype.trim`. -/
def jsTrim (s : String) : String :=
  String.mk (jsTrimList s.toList)

/-- `interface User` from `utils.ts`. -/
structure User where
  name : String
  email : String
deriving DecidableEq, Repr

/-- `interface Todo` from `utils.ts`: optional fields become `Option`,
the `type` discriminator stays a string as in the source. -/
structure Todo where
  file : String
  line : Nat
  column : Option Nat
  type : String
  message : String
  id : Option String
  author : Option User
  assignees : Option (List User)
  createdAt : Option String
  updatedAt : Option String
deriving DecidableEq, Repr

/-- Match the comment mark `(\/\/)|#` at the head of the input; returns
the number of characters consumed and the rest. -/
def stripCommentMark : List Char → Option (Nat × List Char)
  | '/' :: '/' :: rest => some (2, rest)
  | '#' :: rest => some (1, rest)
  | _ => none

/-- Greedy `\s*`: number of leading whitespace characters and the rest. -/
def dropWS : List Char → Nat × List Char
  | [] => (0, [])
  | c :: rest =>
    if isWS c then
      let p := dropWS rest
      (p.1 + 1, p.2)
    else (0, c :: rest)

/-- Match the literal `TODO` case-insensitively (regex flag `i`). -/
def matchTODO : List Char → Option (List Char)
  | t :: o :: d :: o' :: rest =>
    if (t == 'T' || t == 't') && (o == 'O' || o == 'o') &&
       (d == 'D' || d == 'd') && (o' == 'O' || o' == 'o')
    then some rest else none
  | _ => none

/-- The lookahead `(?=(\/\/|#)\s*TODO[:\-]?)` of `todoRegex`: since the
trailing `[:\-]?` is optional it reduces to comment mark, `\s*`, `TODO`. -/
def headerLA (s : List Char) : Bool :=
  match stripCommentMark s with
  | some (_, r1) => (matchTODO (dropWS r1).2).isSome
  | none => false

/-- Anchored match of `((\/\/)|#)\s*TODO[:\-]?\s*` at the head of the
input: the number of characters it consumes, or `none` if it does not
match.  This is both the head of `todoRegex` and the whole pattern of
the `replace` call used by the single-TODO fallback paths. -/
def headerLen (s : List Char) : Option Nat :=
  match stripCommentMark s with
  | none => none
  | some (n1, r1) =>
    let w1 := dropWS r1
    match matchTODO w1.2 with
    | none => none
    | some r2 =>
      match r2 with
      | c :: r3 =>
        if c == ':' || c == '-' then some (n1 + w1.1 + 4 + 1 + (dropWS r3).1)
        else some (n1 + w1.1 + 4 + (dropWS r2).1)
      | [] => some (n1 + w1.1 + 4)

/-- The lazy `(.*?)` bounded by the lookahead (or `$`): take characters
until the next comment-mark + TODO occurrence or end of line. -/
def takeMsg : List Char → List Char
  | [] => []
  | c :: rest => if headerLA (c :: rest) then [] else c :: takeMsg rest

/-- One `exec` loop of `todoRegex` with fuel: at each position try the
anchored header; on success emit the (trimmed, non-empty) message with
the match index and resume after the full match, otherwise advance one
character, exactly as the regex engine bumps along. -/
def scanAux : Nat → List Char → Nat → List (String × Nat)
  | 0, _, _ => []
  | _, [], _ => []
  | fuel + 1, c :: rest, i =>
    match headerLen (c :: rest) with
    | some n =>
      let m := takeMsg ((c :: rest).drop n)
      let msg := jsTrimList m
      let consumed := n + m.length
      let tail := scanAux fuel ((c :: rest).drop consumed) (i + consumed)
      if msg.isEmpty then tail else (String.mk msg, i) :: tail
    | none => scanAux fuel rest (i + 1)

/-- The multi-annotation scan of `localTodo.convertTodo` (the
`while ((match = todoRegex.exec(lineText)) !== null)` loop, keeping only
matches whose trimmed message is non-empty). -/
def extractTodos (lineText : String) : List (String × Nat) :=
  scanAux (lineText.toList.length + 1) lineText.toList 0

/-- `text.replace(/^((\/\/)|#)\s*TODO[:-]?\s*/i, "")`. -/
def stripTodoHeader (text : String) : String :=
  match headerLen text.toList with
  | some n => String.mk (text.toList.drop n)
  | none => text

/-- Local id: `` `${file}:${lineNumber}:${col}` ``. -/
def mkLocalId (file : String) (line col : Nat) : String :=
  file ++ ":" ++ toString line ++ ":" ++ toString col

/-- The local record built for one scan match in `localTodo.convertTodo`. -/
def mkLocalRecord (file : String) (lineNumber : Nat) (msg : String) (col : Nat) : Todo :=
  { file := file, line := lineNumber, column := some col, type := "local",
    message := msg, id := some (mkLocalId file lineNumber col),
    author := none, assignees := none, createdAt := none, updatedAt := none }

/-- The records created by `localTodo.convertTodo`: the scan results, or,
when the scan produced none, the single-TODO fallback built from `text`
(the trimmed line the command was invoked with), with no emptiness check. -/
def localConvertRecords (file : String) (lineNumber : Nat) (lineText text : String) : List Todo :=
  let scanned := (extractTodos lineText).map (fun p => mkLocalRecord file lineNumber p.1 p.2)
  if scanned.isEmpty then
    [{ file := file, line := lineNumber, column := none, type := "local",
       message := jsTrim (stripTodoHeader text), id := some (mkLocalId file lineNumber 0),
       author := none, assignees := none, createdAt := none, updatedAt := none }]
  else scanned

/-- Store effect of `localTodo.convertTodo`: append all created records. -/
def localConvertStore (store : List Todo) (file : String) (lineNumber : Nat)
    (lineText text : String) : List Todo :=
  store ++ localConvertRecords file lineNumber lineText text

/-- The leading-indentation capture `/^(\s*)/` of `localTodo.editTodo`. -/
def leadingIndent (lineText : String) : String :=
  String.mk (lineText.toList.takeWhile isWS)

/-- The comment string synthesized by `localTodo.editTodo`:
`` `${indent}${commentMark} TODO: ${message}` `` with `#` for Python
documents and `//` otherwise. -/
def editTodoComment (lineText languageId message : String) : String :=
  leadingIndent lineText ++ (if languageId == "python" then "#" else "//") ++ " TODO: " ++ message

/-- Store effect of `localTodo.editTodo`: keep the records for which
`!(t.file === file && t.line === lineNumber)`. -/
def editTodoStore (file : String) (lineNumber : Nat) (store : List Todo) : List Todo :=
  store.filter (fun t => !(t.file == file && t.line == lineNumber))

/-- `localTodo.editTodo` (the record → comment Reverse transition): the
line inserted immediately before the record's stored line, and the saved
local store. -/
def localEditTodo (lineText languageId file : String) (lineNumber : Nat)
    (todo : Todo) (store : List Todo) : String × List Todo :=
  (editTodoComment lineText languageId todo.message, editTodoStore file lineNumber store)

/-- `localTodo.removeTodo`: keep the records for which
`!(t.file === file && t.line === lineNumber && t.message === todo.message)`. -/
def localRemoveTodo (store : List Todo) (file : String) (lineNumber : Nat)
    (message : String) : List Todo :=
  store.filter (fun t => !(t.file == file && t.line == lineNumber && t.message == message))

/-- `remoteTodo.removeTodo`: keep the records for which `t.id !== todo.id`. -/
def remoteRemoveTodo (store : List Todo) (tid : Option String) : List Todo :=
  store.filter (fun t => t.id != tid)

/-- `todos.findIndex(t => t.id === tid)` followed by an in-place mutation
of that element: update the first record whose `id` equals `tid`. -/
def updateFirstById (store : List Todo) (tid : Option String) (f : Todo → Todo) : List Todo :=
  match store with
  | [] => []
  | t :: rest => if t.id == tid then f t :: rest else t :: updateFirstById rest tid f

/-- `todos[todos.findIndex(t => t.id === tid)]` as an `Option`. -/
def findFirstById : List Todo → Option String → Option Todo
  | [], _ => none
  | t :: rest, tid => if t.id == tid then some t else findFirstById rest tid

/-- `localTodo.moveTodo`: `validateInput` rejects a requested 1-based
line outside `[1, lineCount]` (no mutation); on success the record found
by `id` gets `line := input - 1`. -/
def localMoveTodo (store : List Todo) (todo : Todo) (input lineCount : Nat) : List Todo :=
  if input < 1 ∨ lineCount < input then store
  else updateFirstById store todo.id (fun t => { t with line := input - 1 })

/-- `remoteTodo.moveTodo`: as `localMoveTodo`, additionally refreshing
`updatedAt`. -/
def remoteMoveTodo (store : List Todo) (todo : Todo) (input lineCount : Nat)
    (now : String) : List Todo :=
  if input < 1 ∨ lineCount < input then store
  else updateFirstById store todo.id (fun t => { t with line := input - 1, updatedAt := some now })

/-- `remoteTodo.editTodo`: `if (!newMessage || newMessage === todo.message) return;`
then the record found by `id` gets the new message and a fresh `updatedAt`. -/
def remoteEditTodo (store : List Todo) (todo : Todo) (newMessage now : String) : List Todo :=
  if newMessage == "" || newMessage == todo.message then store
  else updateFirstById store todo.id (fun t => { t with message := newMessage, updatedAt := some now })

/-- The source edit a Convert transition issues. -/
inductive SourceEdit where
  | deleteWholeLine
  | deleteRange (startCol stopCol : Nat)
deriving DecidableEq, Repr

/-- Index of the first position where the unanchored
`((\/\/)|#)\s*TODO[:\-]?.*$/i` match begins. -/
def findHeaderIdx : List Char → Option Nat
  | [] => none
  | c :: rest => if headerLA (c :: rest) then some 0 else (findHeaderIdx rest).map (· + 1)

/-- The "smart line removal" shared by both convert commands: delete the
whole line when the trimmed line is nothing but the TODO comment,
otherwise delete from the comment mark to the end of the line (or issue
no edit when no comment is found). -/
def convertSourceEdit (lineText : String) : Option SourceEdit :=
  if headerLA (jsTrim lineText).toList then some SourceEdit.deleteWholeLine
  else
    match findHeaderIdx lineText.toList with
    | some j => some (SourceEdit.deleteRange j lineText.toList.length)
    | none => none

/-- `remoteTodo.convertTodo`: rejected with no store change and no source
edit when no git identity is available or the stripped message is empty;
otherwise appends one remote record (author auto-assigned, both
timestamps set to now) and issues the source edit. -/
def remoteConvertTodo (userInfo : Option User) (file : String) (lineNumber : Nat)
    (text lineText nowIso nowMs : String) (store : List Todo) :
    List Todo × Option SourceEdit :=
  match userInfo with
  | none => (store, none)
  | some u =>
    let message := jsTrim (stripTodoHeader text)
    if message == "" then (store, none)
    else
      let todo : Todo :=
        { file := file, line := lineNumber, column := none, type := "remote",
          message := message,
          id := some ("remote-" ++ file ++ ":" ++ toString lineNumber ++ ":" ++ nowMs),
          author := some u, assignees := some [u],
          createdAt := some nowIso, updatedAt := some nowIso }
      (store ++ [todo], convertSourceEdit lineText)

/-- `filterVisibleRemoteTodos` from `utils.ts`. -/
def filterVisibleRemoteTodos (todos : List Todo) (userEmail : String) : List Todo :=
  todos.filter (fun t =>
    t.type == "remote" &&
      ((match t.author with
        | some a => a.email == userEmail
        | none => false) ||
       (t.assignees.getD []).any (fun a => a.email == userEmail)))

/-- The remove branch of `remoteTodo.assignTodo`: look the record up by
`id`; filter its assignees by email; if that would leave zero assignees
return with no mutation, otherwise store the filtered list and refresh
`updatedAt`. -/
def assignRemoveTodo (store : List Todo) (tid : Option String)
    (removeEmail now : String) : List Todo :=
  match findFirstById store tid with
  | none => store
  | some t0 =>
    if ((t0.assignees.getD []).filter (fun a => a.email != removeEmail)).isEmpty then store
    else
      updateFirstById store tid (fun t =>
        { t with assignees := some ((t0.assignees.getD []).filter (fun a => a.email != removeEmail)),
                 updatedAt := some now })

/-! ### Concrete records used as test inputs -/

/-- A local record as created from `"// TODO: a"` at line 0 of file `"f"`. -/
def revRecA : Todo :=
  { file := "f", line := 0, column := some 0, type := "local", message := "a",
    id := some "f:0:0", author := none, assignees := none,
    createdAt := none, updatedAt := none }

/-- A second local record on the same file and line, different message. -/
def revRecB : Todo :=
  { revRecA with message := "b", column := some 11, id := some "f:0:11" }

/-- The local store after one Convert of `"// TODO: x"` at line 0 of `"f"`. -/
def convertOnce : List Todo := localConvertStore [] "f" 0 "// TODO: x" "// TODO: x"

/-- The same Convert applied a second time on the same input. -/
def convertTwice : List Todo := localConvertStore convertOnce "f" 0 "// TODO: x" "// TODO: x"

/-- The identity `a@x.com` from the spec's visibility example. -/
def specUserA : User := { name := "A", email := "a@x.com" }

/-- The identity `b@x.com` from the spec's visibility example. -/
def specUserB : User := { name := "B", email := "b@x.com" }

/-- The remote record of the spec's visibility example: author `a@x.com`,
assignees `[a@x.com, b@x.com]`. -/
def specRec : Todo :=
  { file := "f", line := 0, column := none, type := "remote", message := "m",
    id := some "remote-f:0:0", author := some specUserA,
    assignees := some [specUserA, specUserB],
    createdAt := some "t0", updatedAt := some "t0" }

/-- A remote record with a single assignee, for the last-assignee guard. -/
def soleRec : Todo :=
  { file := "f", line := 0, column := none, type := "remote", message := "m",
    id := some "r1", author := some specUserA, assignees := some [specUserA],
    createdAt := some "t0", updatedAt := some "t0" }

/-- A remote record used as the move target. -/
def mvRec : Todo :=
  { file := "f", line := 0, column := none, type := "remote", message := "m",
    id := some "mv1", author := some specUserA, assignees := some [specUserA],
    createdAt := some "t0", updatedAt := some "t0" }

/-- A remote record used for the visibility-filter type check. -/
def vizRec : Todo :=
  { file := "f", line := 0, column := none, type := "remote", message := "m",
    id := some "viz1", author := some specUserA, assignees := some [specUserA],
    createdAt := some "t0", updatedAt := some "t0" }

/-! ### Helper lemmas -/

/-- Every message emitted by the scan loop is non-empty: a match whose
trimmed message is empty is skipped. -/
lemma scanAux_all_nonempty (fuel : Nat) :
    ∀ s i, (scanAux fuel s i).all (fun p => p.1 != "") = true := by
  induction fuel with
  | zero => intro s i; simp [scanAux]
  | succ fuel ih =>
    intro s i
    match s with
    | [] => simp [scanAux]
    | c :: rest =>
      rw [scanAux]
      cases h : headerLen (c :: rest) with
      | none => exact ih rest (i + 1)
      | some n =>
        simp only
        split
        · exact ih _ _
        · rename_i hne
          rw [List.all_cons]
          refine (Bool.and_eq_true _ _).mpr (And.intro ?_ (ih _ _))
          simp only [bne_iff_ne, ne_eq, decide_eq_true_eq]
          intro hs
          have : jsTrimList (takeMsg (List.drop n (c :: rest))) = [] :=
            congrArg String.data hs
          rw [List.isEmpty_iff] at hne
          exact hne this

/-- Shape of an element of `updateFirstById`: it is either an untouched
element of the store or the image under the update of a stored record
whose `id` is the looked-up one. -/
lemma mem_updateFirstById (store : List Todo) (tid : Option String)
    (f : Todo → Todo) (t : Todo) (ht : t ∈ updateFirstById store tid f) :
    t ∈ store ∨ ∃ t0, t0 ∈ store ∧ t0.id = tid ∧ t = f t0 := by
  induction store with
  | nil => simp [updateFirstById] at ht
  | cons hd rest ih =>
    rw [updateFirstById] at ht
    by_cases hid : hd.id == tid
    · rw [if_pos hid] at ht
      rcases List.mem_cons.mp ht with h | h
      · exact Or.inr ⟨hd, List.mem_cons_self hd rest, beq_iff_eq.mp hid, h⟩
      · exact Or.inl (List.mem_cons_of_mem hd h)
    · rw [if_neg hid] at ht
      rcases List.mem_cons.mp ht with h | h
      · exact Or.inl (h ▸ List.mem_cons_self hd rest)
      · rcases ih h with h' | ⟨t0, ht0, hid0, hft⟩
        · exact Or.inl (List.mem_cons_of_mem hd h')
        · exact Or.inr ⟨t0, List.mem_cons_of_mem hd ht0, hid0, hft⟩

/-- A successful lookup splits the store: the found record is the first
record whose `id` matches, everything before it mismatching. -/
lemma findFirstById_some_split (store : List Todo) (tid : Option String) (t0 : Todo)
    (hf : findFirstById store tid = some t0) :
    ∃ pre post, store = pre ++ t0 :: post ∧ (∀ u ∈ pre, u.id ≠ tid) ∧ t0.id = tid := by
  induction store with
  | nil => simp [findFirstById] at hf
  | cons hd rest ih =>
    rw [findFirstById] at hf
    by_cases hid : hd.id == tid
    · rw [if_pos hid] at hf
      cases Option.some.inj hf
      exact ⟨[], rest, rfl, by simp, beq_iff_eq.mp hid⟩
    · rw [if_neg hid] at hf
      obtain ⟨pre, post, hsplit, hpre, h0⟩ := ih hf
      refine ⟨hd :: pre, post, by rw [hsplit]; rfl, ?_, h0⟩
      intro u hu
      rcases List.mem_cons.mp hu with rfl | hu'
      · exact fun he => hid (beq_iff_eq.mpr he)
      · exact hpre u hu'

/-- Updating by `id` on a store split at the first matching record
replaces exactly that record and leaves everything else in place. -/
lemma updateFirstById_append (pre : List Todo) (t0 : Todo) (post : List Todo)
    (tid : Option String) (f : Todo → Todo)
    (hpre : ∀ u ∈ pre, u.id ≠ tid) (h0 : t0.id = tid) :
    updateFirstById (pre ++ t0 :: post) tid f = pre ++ f t0 :: post := by
  induction pre with
  | nil =>
    rw [List.nil_append, List.nil_append, updateFirstById, if_pos (beq_iff_eq.mpr h0)]
  | cons hd pre' ih =>
    have hhd : ¬(hd.id == tid) = true :=
      fun he => hpre hd (List.mem_cons_self hd pre') (beq_iff_eq.mp he)
    rw [List.cons_append, updateFirstById, if_neg hhd, List.cons_append,
      ih (fun u hu => hpre u (List.mem_cons_of_mem hd hu))]

/-- Updating by an `id` absent from the store leaves it unchanged. -/
lemma updateFirstById_of_find_none (store : List Todo) (tid : Option String)
    (f : Todo → Todo) (hf : findFirstById store tid = none) :
    updateFirstById store tid f = store := by
  induction store with
  | nil => rfl
  | cons hd rest ih =>
    rw [findFirstById] at hf
    by_cases hid : hd.id == tid
    · rw [if_pos hid] at hf
      exact absurd hf (by simp)
    · rw [if_neg hid] at hf
      rw [updateFirstById, if_neg hid, ih hf]

/-! ### Claims -/

/-- C8: extracting from the line `"// TODO: a // TODO: b"` yields exactly
two annotations, with messages `"a"` and `"b"` and offsets `0` and `11`,
the indices of the two `//` comment-mark occurrences: the scan runs left
to right and each trimmed message ends at the start of the next
comment-mark + TODO occurrence or at end of line. -/
theorem c8_multi_todo_extraction :
    extractTodos "// TODO: a // TODO: b" = [("a", 0), ("b", 11)] := by decide

/-- C9: the remote Convert transition is fail-closed on a missing git
identity: with no identity the store is returned unchanged and no source
edit is issued. -/
theorem c9_remote_convert_fail_closed (file : String) (lineNumber : Nat)
    (text lineText nowIso nowMs : String) (store : List Todo) :
    remoteConvertTodo none file lineNumber text lineText nowIso nowMs store = (store, none) := rfl

/-- C10: every record the Visibility Filter outputs has type `"remote"`;
in particular a local record is excluded even when the viewer's email
matches its author or an assignee. -/
theorem c10_visible_only_remote (todos : List Todo) (email : String) :
    ∀ t ∈ filterVisibleRemoteTodos todos email, t.type = "remote" := by
  intro t ht
  have h := (List.mem_filter.mp ht).2
  have h1 := (Bool.and_eq_true _ _).mp h |>.1
  exact beq_iff_eq.mp h1

/-- C5: a remote record in the input is included by the Visibility Filter
iff the viewer email case-sensitively equals the author's email or the
email of some assignee. -/
theorem c5_visibility_iff (todos : List Todo) (email : String) (t : Todo)
    (ht : t ∈ todos) (hr : t.type = "remote") :
    t ∈ filterVisibleRemoteTodos todos email ↔
      ((∃ a, t.author = some a ∧ a.email = email) ∨
       ∃ x ∈ t.assignees.getD [], x.email = email) := by
  rw [filterVisibleRemoteTodos, List.mem_filter]
  constructor
  · intro h
    have h2 := (Bool.and_eq_true _ _).mp h.2 |>.2
    rcases (Bool.or_eq_true _ _).mp h2 with ha | hs
    · left
      cases hau : t.author with
      | none => rw [hau] at ha; simp at ha
      | some a =>
        rw [hau] at ha
        exact ⟨a, rfl, beq_iff_eq.mp ha⟩
    · right
      rcases List.any_eq_true.mp hs with ⟨x, hx, hxe⟩
      exact ⟨x, hx, beq_iff_eq.mp hxe⟩
  · intro h
    refine ⟨ht, (Bool.and_eq_true _ _).mpr ⟨beq_iff_eq.mpr hr, (Bool.or_eq_true _ _).mpr ?_⟩⟩
    rcases h with ⟨a, hau, hae⟩ | ⟨x, hx, hxe⟩
    · left; rw [hau]; exact beq_iff_eq.mpr hae
    · right; exact List.any_eq_true.mpr ⟨x, hx, beq_iff_eq.mpr hxe⟩

/-- C7: Remove matches local records by the `(file, line, message)`
triple and remote records by `id`; deletion is unconditional once
matched, and removing a record that matches nothing leaves the store
unchanged. -/
theorem c7_remove_spec (store : List Todo) (file : String) (lineNumber : Nat)
    (message : String) (tid : Option String) :
    (∀ t, t ∈ localRemoveTodo store file lineNumber message ↔
        t ∈ store ∧ ¬(t.file = file ∧ t.line = lineNumber ∧ t.message = message))
    ∧ (∀ t, t ∈ remoteRemoveTodo store tid ↔ t ∈ store ∧ t.id ≠ tid)
    ∧ ((∀ t ∈ store, ¬(t.file = file ∧ t.line = lineNumber ∧ t.message = message)) →
        localRemoveTodo store file lineNumber message = store)
    ∧ ((∀ t ∈ store, t.id ≠ tid) → remoteRemoveTodo store tid = store) := by
  refine ⟨fun t => ?_, fun t => ?_, fun h => ?_, fun h => ?_⟩
  · rw [localRemoveTodo, List.mem_filter]
    simp only [Bool.not_eq_true', Bool.and_eq_false_iff, beq_eq_false_iff_ne, ne_eq,
      Bool.and_eq_true, beq_iff_eq, not_and]
    tauto
  · rw [remoteRemoveTodo, List.mem_filter]
    simp
  · rw [localRemoveTodo]
    rw [List.filter_eq_self]
    intro a ha
    have := h a ha
    simp only [Bool.not_eq_eq_eq_not, Bool.not_true, Bool.and_eq_false_iff,
      beq_eq_false_iff_ne, ne_eq]
    tauto
  · rw [remoteRemoveTodo]
    rw [List.filter_eq_self]
    intro a ha
    simpa using h a ha

/-- C1 counterexample: the Reverse transition does not delete by the
`(file, line, message)` triple — it deletes every record on the
`(file, line)` pair, so a record on the same file and line with a
different message does not remain in the store. -/
theorem c1_counterexample :
    revRecB.file = revRecA.file ∧ revRecB.line = revRecA.line ∧
    revRecB.message ≠ revRecA.message ∧
    revRecB ∉ editTodoStore revRecA.file revRecA.line [revRecA, revRecB] := by decide

/-- C1 (amended): the Reverse transition inserts
`<indent><prefix> TODO: <message>` with prefix `#` for Python-identified
documents and `//` otherwise, and deletes from the local store exactly
those records matching the pair `(file, line)` of the reversed record,
regardless of message. -/
theorem c1_reverse_amended (lineText languageId file : String) (lineNumber : Nat)
    (todo : Todo) (store : List Todo) :
    (localEditTodo lineText languageId file lineNumber todo store).1
      = leadingIndent lineText ++ (if languageId = "python" then "#" else "//")
        ++ " TODO: " ++ todo.message
    ∧ ∀ t, t ∈ (localEditTodo lineText languageId file lineNumber todo store).2 ↔
        (t ∈ store ∧ ¬(t.file = file ∧ t.line = lineNumber)) := by
  constructor
  · simp only [localEditTodo, editTodoComment]
    by_cases hp : languageId = "python"
    · rw [if_pos (beq_iff_eq.mpr hp), if_pos hp]
    · rw [if_neg (fun hc => hp (beq_iff_eq.mp hc)), if_neg hp]
  · intro t
    simp only [localEditTodo, editTodoStore, List.mem_filter]
    simp only [Bool.not_eq_true', Bool.and_eq_false_iff, beq_eq_false_iff_ne, ne_eq,
      not_and]
    tauto

/-- C2 counterexample: the line `"// TODO:"` does not yield zero
creatable records — the single-annotation fallback performs no emptiness
check, so it yields exactly one local record whose message is empty. -/
theorem c2_counterexample :
    localConvertRecords "f" 0 "// TODO:" "// TODO:" =
      [{ file := "f", line := 0, column := none, type := "local", message := "",
         id := some "f:0:0", author := none, assignees := none,
         createdAt := none, updatedAt := none }] := by decide

/-- C2 (amended): the multi-annotation scan only ever emits records with
non-empty trimmed messages, and the remote message-edit path rejects an
empty input string without mutating the store; but the single-annotation
fallback performs no emptiness check, so the line `"// TODO:"` yields
exactly one record whose message is empty. -/
theorem c2_message_nonempty_amended (lineText : String) :
    ((extractTodos lineText).all (fun p => p.1 != "") = true)
    ∧ (∀ store todo now, remoteEditTodo store todo "" now = store)
    ∧ (localConvertRecords "f" 0 "// TODO:" "// TODO:").map Todo.message = [""] := by
  refine ⟨scanAux_all_nonempty _ _ _, fun store todo now => ?_, by decide⟩
  simp [remoteEditTodo]

/-- C3 counterexample: two successive Convert operations on the same
line text append records with the same deterministic id, so id
uniqueness within the local store is violated. -/
theorem c3_counterexample : ¬ (convertTwice.map Todo.id).Nodup := by decide

/-- C3 (amended): local ids are derived deterministically from
`(file, line, column)` at creation time (the fallback record uses column
`0`); Convert appends records without consulting the ids already in the
store, so a repeated Convert of the same annotation duplicates an id
rather than being prevented. -/
theorem c3_local_id_deterministic (file : String) (lineNumber : Nat)
    (lineText text : String) :
    ∀ t ∈ localConvertRecords file lineNumber lineText text,
      t.id = some (mkLocalId file lineNumber (t.column.getD 0)) := by
  intro t ht
  simp only [localConvertRecords] at ht
  split at ht
  · rcases List.mem_singleton.mp ht with rfl
    rfl
  · rcases List.mem_map.mp ht with ⟨p, hp, rfl⟩
    rfl

/-- C3 witness: the amended theorem applied to the record created from
`"// TODO: x"`. -/
theorem c3_witness :
    mkLocalRecord "f" 0 "x" 0 ∈ localConvertRecords "f" 0 "// TODO: x" "// TODO: x" ∧
    (mkLocalRecord "f" 0 "x" 0).id
      = some (mkLocalId "f" 0 ((mkLocalRecord "f" 0 "x" 0).column.getD 0)) :=
  ⟨by decide, c3_local_id_deterministic "f" 0 "// TODO: x" "// TODO: x" _ (by decide)⟩

/-- C4: every remote record has at least one assignee: remote creation
auto-assigns the author (`assignees = [author]`), the remove branch of
Assign preserves non-emptiness of the assignee list, and a removal that
would leave zero assignees returns the store unchanged. -/
theorem c4_assignee_invariant :
    (∀ u file lineNumber text lineText nowIso nowMs store,
        jsTrim (stripTodoHeader text) ≠ "" →
        ∃ rec, (remoteConvertTodo (some u) file lineNumber text lineText nowIso nowMs store).1
            = store ++ [rec] ∧ rec.assignees = some [u] ∧ rec.author = some u)
    ∧ (∀ store tid removeEmail now,
        (∀ t ∈ store, t.assignees.getD [] ≠ []) →
        ∀ t ∈ assignRemoveTodo store tid removeEmail now, t.assignees.getD [] ≠ [])
    ∧ (∀ store tid removeEmail now t0,
        findFirstById store tid = some t0 →
        (t0.assignees.getD []).filter (fun a => a.email != removeEmail) = [] →
        assignRemoveTodo store tid removeEmail now = store) := by
  refine ⟨?_, ?_, ?_⟩
  · intro u file lineNumber text lineText nowIso nowMs store h
    simp only [remoteConvertTodo]
    rw [if_neg (fun hc => h (beq_iff_eq.mp hc))]
    exact ⟨_, rfl, rfl, rfl⟩
  · intro store tid removeEmail now hinv t ht
    rw [assignRemoveTodo] at ht
    split at ht
    · exact hinv t ht
    · rename_i t0 hf
      split at ht
      · exact hinv t ht
      · rename_i hemp
        rcases mem_updateFirstById _ _ _ _ ht with h | ⟨t1, ht1, _, rfl⟩
        · exact hinv t h
        · have hne : (t0.assignees.getD []).filter (fun a => a.email != removeEmail) ≠ [] := by
            intro he
            rw [he] at hemp
            exact hemp rfl
          simpa using hne
  · intro store tid removeEmail now t0 hf hfil
    rw [assignRemoveTodo, hf]
    simp [hfil]

/-- C4 witness: remote creation of `"// TODO: x"` auto-assigns the
author, and removing the sole assignee of `soleRec` is rejected with the
store unchanged. -/
theorem c4_witness :
    (∃ rec, (remoteConvertTodo (some specUserA) "f" 0 "// TODO: x" "// TODO: x" "t0" "0" []).1
        = [] ++ [rec] ∧ rec.assignees = some [specUserA] ∧ rec.author = some specUserA)
    ∧ assignRemoveTodo [soleRec] (some "r1") "a@x.com" "t1" = [soleRec] :=
  ⟨c4_assignee_invariant.1 specUserA "f" 0 "// TODO: x" "// TODO: x" "t0" "0" [] (by decide),
   c4_assignee_invariant.2.2 [soleRec] (some "r1") "a@x.com" "t1" soleRec (by decide) (by decide)⟩

/-- C6: Move validates the requested 1-based destination against
`[1, lineCount]`: out-of-range input leaves the store unchanged; a valid
input updates (by id lookup) only the moved record, setting `line` to
the 0-based equivalent while `id`, `message` and `author` are unchanged,
with `updatedAt` refreshed on the remote path. -/
theorem c6_move_spec (store : List Todo) (todo : Todo) (n lineCount : Nat)
    (now : String) :
    ((n < 1 ∨ lineCount < n) →
        localMoveTodo store todo n lineCount = store ∧
        remoteMoveTodo store todo n lineCount now = store)
    ∧ (1 ≤ n → n ≤ lineCount →
        (findFirstById store todo.id = none →
            localMoveTodo store todo n lineCount = store ∧
            remoteMoveTodo store todo n lineCount now = store)
        ∧ ∀ t0, findFirstById store todo.id = some t0 →
            ∃ pre post tl tr,
              store = pre ++ t0 :: post ∧
              (∀ u ∈ pre, u.id ≠ todo.id) ∧
              t0.id = todo.id ∧
              localMoveTodo store todo n lineCount = pre ++ tl :: post ∧
              remoteMoveTodo store todo n lineCount now = pre ++ tr :: post ∧
              tl.line = n - 1 ∧ tl.id = t0.id ∧ tl.message = t0.message ∧
              tl.author = t0.author ∧ tl.file = t0.file ∧ tl.column = t0.column ∧
              tl.type = t0.type ∧ tl.assignees = t0.assignees ∧
              tl.createdAt = t0.createdAt ∧ tl.updatedAt = t0.updatedAt ∧
              tr.line = n - 1 ∧ tr.id = t0.id ∧ tr.message = t0.message ∧
              tr.author = t0.author ∧ tr.file = t0.file ∧ tr.column = t0.column ∧
              tr.type = t0.type ∧ tr.assignees = t0.assignees ∧
              tr.createdAt = t0.createdAt ∧ tr.updatedAt = some now) := by
  constructor
  · intro h
    exact ⟨by rw [localMoveTodo, if_pos h], by rw [remoteMoveTodo, if_pos h]⟩
  · intro h1 h2
    have hcond : ¬(n < 1 ∨ lineCount < n) := by omega
    constructor
    · intro hnone
      refine ⟨?_, ?_⟩
      · rw [localMoveTodo, if_neg hcond]
        exact updateFirstById_of_find_none _ _ _ hnone
      · rw [remoteMoveTodo, if_neg hcond]
        exact updateFirstById_of_find_none _ _ _ hnone
    · intro t0 hf
      obtain ⟨pre, post, rfl, hpre, hid⟩ := findFirstById_some_split store todo.id t0 hf
      refine ⟨pre, post, { t0 with line := n - 1 },
        { t0 with line := n - 1, updatedAt := some now },
        rfl, hpre, hid, ?_, ?_,
        rfl, rfl, rfl, rfl, rfl, rfl, rfl, rfl, rfl, rfl,
        rfl, rfl, rfl, rfl, rfl, rfl, rfl, rfl, rfl, rfl⟩
      · rw [localMoveTodo, if_neg hcond]
        exact updateFirstById_append pre t0 post todo.id _ hpre hid
      · rw [remoteMoveTodo, if_neg hcond]
        exact updateFirstById_append pre t0 post todo.id _ hpre hid

/-- C6 witness: moving `mvRec` to line 0 of a 3-line document is
rejected with no mutation; moving it to line 2 replaces exactly the
looked-up record, setting its `line` to the 0-based equivalent `1` while
`id`, `message` and `author` are unchanged and the remote path refreshes
`updatedAt`. -/
theorem c6_witness :
    (localMoveTodo [mvRec] mvRec 0 3 = [mvRec] ∧
     remoteMoveTodo [mvRec] mvRec 0 3 "t1" = [mvRec])
    ∧ (∃ pre post tl tr,
        ([mvRec] : List Todo) = pre ++ mvRec :: post ∧
        (∀ u ∈ pre, u.id ≠ mvRec.id) ∧
        mvRec.id = mvRec.id ∧
        localMoveTodo [mvRec] mvRec 2 3 = pre ++ tl :: post ∧
        remoteMoveTodo [mvRec] mvRec 2 3 "t1" = pre ++ tr :: post ∧
        tl.line = 2 - 1 ∧ tl.id = mvRec.id ∧ tl.message = mvRec.message ∧
        tl.author = mvRec.author ∧ tl.file = mvRec.file ∧ tl.column = mvRec.column ∧
        tl.type = mvRec.type ∧ tl.assignees = mvRec.assignees ∧
        tl.createdAt = mvRec.createdAt ∧ tl.updatedAt = mvRec.updatedAt ∧
        tr.line = 2 - 1 ∧ tr.id = mvRec.id ∧ tr.message = mvRec.message ∧
        tr.author = mvRec.author ∧ tr.file = mvRec.file ∧ tr.column = mvRec.column ∧
        tr.type = mvRec.type ∧ tr.assignees = mvRec.assignees ∧
        tr.createdAt = mvRec.createdAt ∧ tr.updatedAt = some "t1") :=
  ⟨(c6_move_spec [mvRec] mvRec 0 3 "t1").1 (Or.inl (by omega)),
   ((c6_move_spec [mvRec] mvRec 2 3 "t1").2 (by omega) (by omega)).2 mvRec (by decide)⟩

/-- C5 witness: the spec's visibility example — author `a@x.com`,
assignees `[a@x.com, b@x.com]`: viewer `b@x.com` sees the record and
viewer `c@x.com` does not. -/
theorem c5_witness :
    specRec ∈ [specRec] ∧ specRec.type = "remote" ∧
    specRec ∈ filterVisibleRemoteTodos [specRec] "b@x.com" ∧
    specRec ∉ filterVisibleRemoteTodos [specRec] "c@x.com" := by
  refine ⟨by decide, by decide, ?_, ?_⟩
  · exact (c5_visibility_iff [specRec] "b@x.com" specRec (by decide) (by decide)).mpr
      (Or.inr ⟨specUserB, by decide, by decide⟩)
  · intro hmem
    rcases (c5_visibility_iff [specRec] "c@x.com" specRec (by decide) (by decide)).mp hmem with
      ⟨a, ha, hae⟩ | ⟨x, hx, hxe⟩
    · rw [show specRec.author = some specUserA from rfl] at ha
      cases Option.some.inj ha
      exact absurd hae (by decide)
    · have : x = specUserA ∨ x = specUserB := by
        simpa [specRec] using hx
      rcases this with rfl | rfl
      · exact absurd hxe (by decide)
      · exact absurd hxe (by decide)

/-- C7 witness: applying the removal specification to a concrete store:
removing a record that matches nothing is a silent no-op on both paths. -/
theorem c7_witness :
    localRemoveTodo [revRecA] "g" 1 "zz" = [revRecA] ∧
    remoteRemoveTodo [revRecA] (some "other") = [revRecA] :=
  ⟨(c7_remove_spec [revRecA] "g" 1 "zz" (some "other")).2.2.1 (by decide),
   (c7_remove_spec [revRecA] "g" 1 "zz" (some "other")).2.2.2 (by decide)⟩

/-- C10 witness: a concrete remote record accepted by the filter indeed
has type `"remote"`. -/
theorem c10_witness :
    vizRec ∈ filterVisibleRemoteTodos [vizRec] "a@x.com" ∧ vizRec.type = "remote" :=
  ⟨by decide, c10_visible_only_remote [vizRec] "a@x.com" vizRec (by decide)⟩

end AwesomeTodo
